import Mathlib

/-!
Verification of the batch task-execution engine in
`src/scripts/get_random_sample.py` (repository what-for-where).

The Python source is shallowly embedded: the attempt wrapper `DaskFunc` /
`AsyncDaskFunc`, the per-task retry bookkeeping shared by `process_future`
and `async_map`, the future-processing routine `process_future`, the
priority-queue reassembly of `amap`, the sub-batch construction of
`dask_map`, the identity-rotation counters of `dask_map`, and the outer
completion loop are all translated into executable Lean definitions and
their properties proved below.
-/

variable {α β : Type}

/-- Python exception values, as far as the engine inspects them: the
synthetic `TimeoutError(...)` built in `process_future` (carrying the
round timeout in seconds) versus any other exception object, abstracted
by a numeric code. -/
inductive PyExc where
  | timeoutError (secs : Nat)
  | error (code : Nat)
deriving DecidableEq

/-- Discriminator: is this exception a `TimeoutError`? -/
def PyExc.isTimeout : PyExc → Bool
  | .timeoutError _ => true
  | .error _ => false

/-- The attempt-record dict with keys res, exception, pre_time and
post_time produced by the call methods of DaskFunc and AsyncDaskFunc and
by the synthetic-record branches of process_future.  A Lean none in res
or exception models the Python value None; timestamps are modelled as
Option Nat clock readings (None or a time). -/
structure AttemptRec (β : Type) where
  res : Option β
  exception : Option PyExc
  pre_time : Option Nat
  post_time : Option Nat
deriving DecidableEq

/-- The `DaskTask` class: one candidate argument, its append-only failure
list `exceptions`, its success record `result` (initially `None`), and the
`completed` flag. -/
structure DaskTask (α β : Type) where
  args : α
  exceptions : List (AttemptRec β)
  result : Option (AttemptRec β)
  completed : Bool
deriving DecidableEq

/-- `DaskTask.__init__`: a fresh Pending task. -/
def mkTask (a : α) : DaskTask α β := ⟨a, [], none, false⟩

/-- `DaskFunc.__call__`: record `pre_time`, run the wrapped function
(which either returns a value — possibly Python `None`, modelled as the
inner `Option` — or raises, modelled by `Except.error`), catch any raised
exception, record `post_time`, and return the attempt record.  The wall
clock is passed in explicitly: the call starts at `t0` and takes `dur`
ticks, so `post_time = t0 + dur`. -/
def daskFuncE (f : α → Except PyExc (Option β)) (t0 dur : Nat) (arg : α) :
    AttemptRec β :=
  match f arg with
  | Except.ok v => ⟨v, none, some t0, some (t0 + dur)⟩
  | Except.error e => ⟨none, some e, some t0, some (t0 + dur)⟩

/-- `AsyncDaskFunc.__call__`: textually identical to `DaskFunc.__call__`
apart from `await`, so its embedding has the same body. -/
def asyncDaskFuncE (f : α → Except PyExc (Option β)) (t0 dur : Nat)
    (arg : α) : AttemptRec β :=
  match f arg with
  | Except.ok v => ⟨v, none, some t0, some (t0 + dur)⟩
  | Except.error e => ⟨none, some e, some t0, some (t0 + dur)⟩

/-- The per-task record-folding step shared by `process_future`
(lines 250-260) and `async_map` (lines 135-144): a failure record is
appended to `exceptions` and the task is completed when the failure count
reaches `max_task_tries`; a success record is stored in `result` and the
task is completed immediately. -/
def applyRecord (maxTries : Nat) (t : DaskTask α β) (r : AttemptRec β) :
    DaskTask α β :=
  if r.exception.isSome then
    let t1 : DaskTask α β := { t with exceptions := t.exceptions ++ [r] }
    if maxTries ≤ t1.exceptions.length then { t1 with completed := true }
    else t1
  else
    { t with result := some r, completed := true }

/-- The `for t, r in zip(batch_tasks, batch_results)` loop of
`process_future`: fold each record into its task; like Python `zip`, stop
at the shorter list, leaving surplus tasks untouched. -/
def applyResults (maxTries : Nat) :
    List (DaskTask α β) → List (AttemptRec β) → List (DaskTask α β)
  | [], _ => []
  | ts, [] => ts
  | t :: ts, r :: rs => applyRecord maxTries t r :: applyResults maxTries ts rs

/-- The `exception_counter.add(1)` calls of `process_future`: one per
zipped pair whose record carries an exception. -/
def countExc (ts : List (DaskTask α β)) (rs : List (AttemptRec β)) : Nat :=
  ((ts.zip rs).filter (fun p => p.2.exception.isSome)).length

/-- A synthetic attempt record built inside process_future: res is None,
exception is the given exception, pre_time is None, and post_time is the
current wall-clock reading. -/
def synthRec (e : PyExc) (now : Nat) : AttemptRec β :=
  ⟨none, some e, none, some now⟩

/-- The state of a dask future when `process_future` inspects it:
finished with a list of attempt records (one per task of the unit),
failed with a raised exception (so `f.result()` raises), or still
unfinished. -/
inductive FutureState (β : Type) where
  | finished (results : List (AttemptRec β))
  | failed (e : PyExc)
  | unfinished
deriving DecidableEq

/-- `f.status == "finished"`. -/
def FutureState.isFinished : FutureState β → Bool
  | .finished _ => true
  | _ => false

/-- Lines 242-249 of `process_future`: choose the batch results.  When
`cancel_if_unfinished` holds and the future is not finished, the future is
cancelled and one synthetic `TimeoutError` record per task is built;
otherwise `f.result()` is taken — raising (future failed) yields one
synthetic record per task carrying the raised exception, and a future
that is still running would block, modelled as `none`. -/
def futureBatchResults (fut : FutureState β) (cancelIfUnfinished : Bool)
    (timeout now n : Nat) : Option (List (AttemptRec β)) :=
  if cancelIfUnfinished && !fut.isFinished then
    some (List.replicate n (synthRec (PyExc.timeoutError timeout) now))
  else
    match fut with
    | .finished rs => some rs
    | .failed e => some (List.replicate n (synthRec e now))
    | .unfinished => none

/-- `process_future`: look the future up in `batch_tasks_lookup` (the
entry is the pair of the unit task list and the processed flag), return
immediately when already processed, otherwise fold the batch results into
the tasks, count the failures, and mark the entry processed.  The second
component of the output is the amount added to `exception_counter`. -/
def processFuture (maxTries timeout now : Nat) (cancelIfUnfinished : Bool)
    (fut : FutureState β) (entry : List (DaskTask α β) × Bool) :
    Option ((List (DaskTask α β) × Bool) × Nat) :=
  if entry.2 then some (entry, 0)
  else
    match futureBatchResults fut cancelIfUnfinished timeout now
        entry.1.length with
    | none => none
    | some rs => some ((applyResults maxTries entry.1 rs, true),
        countExc entry.1 rs)

/-- Python `enumerate(data)` starting at index `i`, as used by `amap`
(line 102) to tag each input with its position. -/
def pyEnumFrom : Nat → List α → List (Nat × α)
  | _, [] => []
  | i, a :: l => (i, a) :: pyEnumFrom (i + 1) l

/-- One `get_nowait()` on the `asyncio.PriorityQueue` of `amap`: remove
the entry with the smallest priority (the input index; indices are
distinct, so tie-breaking never matters). -/
def popMin : List (Nat × β) → Option ((Nat × β) × List (Nat × β))
  | [] => none
  | x :: xs =>
    match popMin xs with
    | none => some (x, [])
    | some (m, rest) => if x.1 ≤ m.1 then some (x, xs) else some (m, x :: rest)

/-- The drain loop of `amap` (lines 114-121): repeatedly `get_nowait()`
until the result queue is empty.  The fuel is the queue length, which is
exactly the number of iterations the loop performs. -/
def drainAllAux : Nat → List (Nat × β) → List (Nat × β)
  | 0, _ => []
  | fuel + 1, l =>
    match popMin l with
    | none => []
    | some (m, rest) => m :: drainAllAux fuel rest

/-- Drain the whole priority queue in priority order. -/
def drainAll (l : List (Nat × β)) : List (Nat × β) :=
  drainAllAux l.length l

/-- The earliest exception raised by a worker coroutine, if any: when the
operation raises on some input, `asyncio.gather(*workers)` re-raises it
out of `amap` (line 109) before the result queue is drained.  Determinised
here to the first raising input in input order; the claims below only
depend on whether some exception is raised. -/
def raisedError (op : α → Except PyExc β) (data : List α) : Option PyExc :=
  data.findSome? (fun a =>
    match op a with
    | Except.error e => some e
    | Except.ok _ => none)

/-- `amap`: apply `op` to every input under bounded concurrency.  The
nondeterministic completion order is externalised as `queue`, the final
content of the result priority queue (any permutation of the tagged
results).  If some call of `op` raises, `amap` raises instead of
returning; otherwise the queue is drained in index order and the indices
are discarded. -/
def amapE (op : α → Except PyExc β) (data : List α)
    (queue : List (Nat × β)) : Except PyExc (List β) :=
  match raisedError op data with
  | some e => Except.error e
  | none => Except.ok ((drainAll queue).map Prod.snd)

/-- One Python slice loop `for i in range(0, len(l), step): l[i:i+step]`.
The fuel is the list length: with `step ≥ 1` each iteration consumes at
least one element.  Python raises on `step = 0`; that case is excluded by
the `pyChunks` wrapper. -/
def pyChunksAux (step : Nat) : Nat → List α → List (List α)
  | 0, _ => []
  | _ + 1, [] => []
  | fuel + 1, a :: l =>
    (a :: l).take step :: pyChunksAux step fuel ((a :: l).drop step)

/-- `for i in range(0, len(l), step): chunks.append(l[i:i+step])`. -/
def pyChunks (l : List α) (step : Nat) : List (List α) :=
  if step = 0 then [] else pyChunksAux step l.length l

/-- Lines 291-298 of `dask_map`: select the round batch (the first
`current_batch_size = min(batch_size, pending)` incomplete tasks) and cut
it into sub-batches.  The source slices with step `batch_size` — not
`task_batch_size` — which is the point settled by claim C7. -/
def buildSubBatches (tasks : List (DaskTask α β)) (batchSize : Nat) :
    List (List (DaskTask α β)) :=
  let pending := tasks.filter (fun t => !t.completed)
  let currentBatchSize := min batchSize pending.length
  let allBatchTasks := pending.take currentBatchSize
  pyChunks allBatchTasks batchSize

/-- The per-identity counters of `dask_map`:
`num_reqs_for_current_ips` and `num_exceptions_for_current_ips`. -/
structure IpCounters where
  numReqs : Nat
  numExc : Nat
deriving DecidableEq

/-- The three cluster backends of `DaskCluster.__aenter__`. -/
inductive ClusterType where
  | fargate
  | local
  | raspi
deriving DecidableEq

/-- Line 330 of `dask_map`:
`num_reqs >= reqs_per_ip * num_actual_workers or
num_exceptions / num_reqs >= 0.1`.  The float ratio test is modelled
exactly over the integers as `10 * numExc ≥ numReqs` (equivalent for
`numReqs > 0`, which holds whenever the check runs since at least one
request was just issued). -/
def rotateTrigger (reqsPerIp numWorkers : Nat) (s : IpCounters) : Bool :=
  decide (reqsPerIp * numWorkers ≤ s.numReqs) ||
    decide (s.numReqs ≤ 10 * s.numExc)

/-- Lines 332-348 of `dask_map`: the rotation action per backend.  The
Fargate branch resets only `num_reqs_for_current_ips` (line 335); the
raspi branch resets both counters (lines 346-347; the subsequent cluster
restart re-initialises both to zero as well); the local backend matches
neither `isinstance` test, so nothing happens. -/
def resetCounters (ct : ClusterType) (s : IpCounters) : IpCounters :=
  match ct with
  | .fargate => { s with numReqs := 0 }
  | .raspi => ⟨0, 0⟩
  | .local => s

/-- One round of counter bookkeeping in `dask_map`: add the round request
count (line 301) and the round exception count (line 327), then test the
rotation trigger and, when it fires, perform the backend rotation action.
The boolean reports whether rotation was triggered. -/
def roundCounters (ct : ClusterType) (reqsPerIp numWorkers batchCount
    excCount : Nat) (s : IpCounters) : IpCounters × Bool :=
  let s1 : IpCounters := ⟨s.numReqs + batchCount, s.numExc + excCount⟩
  if rotateTrigger reqsPerIp numWorkers s1 then (resetCounters ct s1, true)
  else (s1, false)

/-- One retry round over the ledger, shared shape of `async_map` and
`dask_map`: every incomplete task that the round reaches receives exactly
one attempt record, folded by `applyRecord`; completed tasks are skipped
(they are filtered out of the batch).  The schedule assigns a record —
or none, for tasks the round does not dispatch — per round index and
task argument. -/
def roundStep (maxTries : Nat) (sched : Nat → α → Option (AttemptRec β))
    (k : Nat) (ts : List (DaskTask α β)) : List (DaskTask α β) :=
  ts.map (fun t =>
    if t.completed then t
    else
      match sched k t.args with
      | none => t
      | some r => applyRecord maxTries t r)

/-- The outer loop of `async_map` / `dask_map`:
`while len([t for t in tasks if not t.completed]) > 0`, run one round.
Fuel bounds the number of rounds; exhausted fuel with incomplete tasks
models a run that has not yet returned. -/
def runRounds (maxTries : Nat) (sched : Nat → α → Option (AttemptRec β)) :
    Nat → Nat → List (DaskTask α β) → Option (List (DaskTask α β))
  | 0, _, ts => if ts.all (fun t => t.completed) then some ts else none
  | fuel + 1, k, ts =>
    if ts.all (fun t => t.completed) then some ts
    else runRounds maxTries sched fuel (k + 1) (roundStep maxTries sched k ts)

/-- The ledger invariant maintained by the retry bookkeeping: a Pending
task has strictly fewer than `maxTries` failures, and a completed task
either holds a success record or has exactly `maxTries` failures. -/
def TaskInv (maxTries : Nat) (t : DaskTask α β) : Prop :=
  (t.completed = false → t.exceptions.length < maxTries) ∧
  (t.completed = true →
    t.result.isSome = true ∨ t.exceptions.length = maxTries)

theorem popMin_cons_isSome (x : Nat × β) (xs : List (Nat × β)) :
    (popMin (x :: xs)).isSome = true := by
  simp only [popMin]
  cases popMin xs with
  | none => rfl
  | some p =>
    obtain ⟨m, rest⟩ := p
    by_cases hx : x.1 ≤ m.1 <;> simp [hx]

theorem eq_nil_of_popMin_eq_none {l : List (Nat × β)} (h : popMin l = none) :
    l = [] := by
  cases l with
  | nil => rfl
  | cons x xs =>
    have hs := popMin_cons_isSome x xs
    rw [h] at hs
    simp at hs

theorem popMin_perm (l : List (Nat × β)) :
    ∀ m rest, popMin l = some (m, rest) → l.Perm (m :: rest) := by
  induction l with
  | nil => intro m rest h; simp [popMin] at h
  | cons x xs ih =>
    intro m rest h
    simp only [popMin] at h
    cases hxs : popMin xs with
    | none =>
      rw [hxs] at h
      have hnil := eq_nil_of_popMin_eq_none hxs
      subst hnil
      simp at h
      obtain ⟨h1, h2⟩ := h
      subst h1; subst h2
      exact List.Perm.refl _
    | some q =>
      obtain ⟨m1, rest1⟩ := q
      rw [hxs] at h
      by_cases hx : x.1 ≤ m1.1
      · simp only [hx, if_true, Option.some.injEq, Prod.mk.injEq] at h
        obtain ⟨h1, h2⟩ := h
        subst h1; subst h2
        exact List.Perm.refl _
      · simp only [hx, if_false, Option.some.injEq, Prod.mk.injEq] at h
        obtain ⟨h1, h2⟩ := h
        subst h1; subst h2
        have hxs2 : (x :: xs).Perm (x :: m1 :: rest1) :=
          List.Perm.cons x (ih m1 rest1 hxs)
        exact hxs2.trans (List.Perm.swap m1 x rest1)

theorem popMin_le (l : List (Nat × β)) :
    ∀ m rest, popMin l = some (m, rest) → ∀ p ∈ l, m.1 ≤ p.1 := by
  induction l with
  | nil => intro m rest h; simp [popMin] at h
  | cons x xs ih =>
    intro m rest h p hp
    simp only [popMin] at h
    cases hxs : popMin xs with
    | none =>
      rw [hxs] at h
      have hnil := eq_nil_of_popMin_eq_none hxs
      subst hnil
      simp at h
      obtain ⟨h1, _⟩ := h
      subst h1
      simp at hp
      subst hp
      exact Nat.le_refl _
    | some q =>
      obtain ⟨m1, rest1⟩ := q
      rw [hxs] at h
      by_cases hx : x.1 ≤ m1.1
      · simp only [hx, if_true, Option.some.injEq, Prod.mk.injEq] at h
        obtain ⟨h1, h2⟩ := h
        subst h1
        rcases List.mem_cons.1 hp with hpx | hpxs
        · subst hpx; exact Nat.le_refl _
        · exact Nat.le_trans hx (ih m1 rest1 hxs p hpxs)
      · simp only [hx, if_false, Option.some.injEq, Prod.mk.injEq] at h
        obtain ⟨h1, h2⟩ := h
        subst h1
        rcases List.mem_cons.1 hp with hpx | hpxs
        · subst hpx
          exact Nat.le_of_lt (Nat.lt_of_not_le hx)
        · exact ih m1 rest1 hxs p hpxs

theorem drainAllAux_eq_of_perm (fuel : Nat) :
    ∀ (l tl : List (Nat × β)), l.length ≤ fuel → l.Perm tl →
      tl.Pairwise (fun p q => p.1 < q.1) → drainAllAux fuel l = tl := by
  induction fuel with
  | zero =>
    intro l tl hlen hperm _
    have hl : l = [] := List.length_eq_zero.1 (Nat.le_zero.1 hlen)
    subst hl
    have htl : tl = [] := (List.Perm.nil_eq hperm).symm
    subst htl
    rfl
  | succ fuel ih =>
    intro l tl hlen hperm hsort
    cases tl with
    | nil =>
      have hl : l = [] := hperm.eq_nil
      subst hl
      rfl
    | cons m tl2 =>
      cases hpop : popMin l with
      | none =>
        have hl := eq_nil_of_popMin_eq_none hpop
        subst hl
        exact absurd (List.Perm.nil_eq hperm) (by simp)
      | some q =>
        obtain ⟨m0, rest⟩ := q
        have hlperm := popMin_perm l m0 rest hpop
        have hmin := popMin_le l m0 rest hpop
        have hm0l : m0 ∈ l := hlperm.symm.subset (List.mem_cons_self _ _)
        have hm0 : m0 = m := by
          rcases List.mem_cons.1 (hperm.subset hm0l) with h | h
          · exact h
          · have h1 : m.1 < m0.1 := (List.pairwise_cons.1 hsort).1 m0 h
            have hml : m ∈ l := hperm.symm.subset (List.mem_cons_self _ _)
            have h2 : m0.1 ≤ m.1 := hmin m hml
            omega
        subst hm0
        have hrest : rest.Perm tl2 :=
          (hlperm.symm.trans hperm).cons_inv
        have hlen2 : rest.length ≤ fuel := by
          have hle := hlperm.length_eq
          simp at hle
          omega
        have hsort2 := (List.pairwise_cons.1 hsort).2
        simp only [drainAllAux]
        rw [hpop]
        exact congrArg (m0 :: ·) (ih rest tl2 hlen2 hrest hsort2)

theorem pyEnumFrom_le : ∀ (i : Nat) (l : List α) (p : Nat × α),
    p ∈ pyEnumFrom i l → i ≤ p.1 := by
  intro i l
  induction l generalizing i with
  | nil => intro p hp; simp [pyEnumFrom] at hp
  | cons a l ih =>
    intro p hp
    simp only [pyEnumFrom, List.mem_cons] at hp
    rcases hp with hp | hp
    · subst hp; exact Nat.le_refl _
    · exact Nat.le_trans (Nat.le_succ i) (ih (i + 1) p hp)

theorem pyEnumFrom_pairwise (i : Nat) (l : List α) :
    (pyEnumFrom i l).Pairwise (fun p q => p.1 < q.1) := by
  induction l generalizing i with
  | nil => exact List.Pairwise.nil
  | cons a l ih =>
    refine List.Pairwise.cons ?_ (ih (i + 1))
    intro p hp
    have := pyEnumFrom_le (i + 1) l p hp
    omega

theorem pyEnumFrom_tag_map (op : α → β) (i : Nat) (l : List α) :
    ((pyEnumFrom i l).map (fun p => (p.1, op p.2))).map Prod.snd =
      l.map op := by
  induction l generalizing i with
  | nil => rfl
  | cons a l ih => simp [pyEnumFrom, ih]

theorem raisedError_eq_none (g : α → β) (data : List α) :
    raisedError (fun a => Except.ok (g a)) data = none := by
  induction data with
  | nil => rfl
  | cons a l ih =>
    simp only [raisedError, List.findSome?_cons] at ih ⊢
    exact ih

theorem amapE_ok_of_perm (g : α → β) (data : List α)
    (queue : List (Nat × β))
    (hq : queue.Perm ((pyEnumFrom 0 data).map (fun p => (p.1, g p.2)))) :
    amapE (fun a => Except.ok (g a)) data queue =
      Except.ok (data.map g) := by
  unfold amapE
  rw [raisedError_eq_none]
  have hsort : ((pyEnumFrom 0 data).map (fun p => (p.1, g p.2))).Pairwise
      (fun p q => p.1 < q.1) := by
    rw [List.pairwise_map]
    exact pyEnumFrom_pairwise 0 data
  rw [drainAll, drainAllAux_eq_of_perm queue.length queue _ (Nat.le_refl _)
    hq hsort, pyEnumFrom_tag_map]

theorem applyRecord_cases (maxTries : Nat) (t : DaskTask α β)
    (r : AttemptRec β) :
    (r.exception.isSome = true ∧ maxTries ≤ t.exceptions.length + 1 ∧
      applyRecord maxTries t r =
        { t with exceptions := t.exceptions ++ [r], completed := true }) ∨
    (r.exception.isSome = true ∧ t.exceptions.length + 1 < maxTries ∧
      applyRecord maxTries t r =
        { t with exceptions := t.exceptions ++ [r] }) ∨
    (r.exception.isSome = false ∧
      applyRecord maxTries t r =
        { t with result := some r, completed := true }) := by
  by_cases hr : r.exception.isSome = true
  · by_cases hm : maxTries ≤ t.exceptions.length + 1
    · refine Or.inl ⟨hr, hm, ?_⟩
      unfold applyRecord
      rw [if_pos hr, if_pos (by simpa using hm)]
    · refine Or.inr (Or.inl ⟨hr, by omega, ?_⟩)
      unfold applyRecord
      rw [if_pos hr, if_neg (by simpa using hm)]
  · refine Or.inr (Or.inr ⟨by simpa using hr, ?_⟩)
    unfold applyRecord
    rw [if_neg hr]

theorem applyRecord_failure (maxTries : Nat) (t : DaskTask α β)
    (r : AttemptRec β) (hr : r.exception.isSome = true) :
    (applyRecord maxTries t r).exceptions = t.exceptions ++ [r] ∧
    (applyRecord maxTries t r).result = t.result := by
  rcases applyRecord_cases maxTries t r with ⟨_, _, he⟩ | ⟨_, _, he⟩ | ⟨hf, _⟩
  · rw [he]; exact ⟨rfl, rfl⟩
  · rw [he]; exact ⟨rfl, rfl⟩
  · rw [hr] at hf; cases hf

theorem applyResults_replicate (maxTries : Nat) (ts : List (DaskTask α β))
    (r : AttemptRec β) :
    applyResults maxTries ts (List.replicate ts.length r) =
      ts.map (fun t => applyRecord maxTries t r) := by
  induction ts with
  | nil => rfl
  | cons t ts ih =>
    simp only [List.length_cons, List.replicate_succ, applyResults,
      List.map_cons]
    exact congrArg _ ih

theorem processFuture_replicate (maxTries timeout now : Nat) (cancel : Bool)
    (fut : FutureState β) (ts : List (DaskTask α β)) (eo : PyExc)
    (hfb : futureBatchResults fut cancel timeout now ts.length =
      some (List.replicate ts.length (synthRec eo now))) :
    ∃ cnt, processFuture maxTries timeout now cancel fut (ts, false) =
      some ((ts.map (fun t => applyRecord maxTries t (synthRec eo now)),
        true), cnt) := by
  refine ⟨countExc ts (List.replicate ts.length (synthRec eo now)), ?_⟩
  simp only [processFuture, hfb, applyResults_replicate]
  rfl

theorem taskInv_applyRecord (maxTries : Nat) (t : DaskTask α β)
    (r : AttemptRec β) (ht : TaskInv maxTries t) (hp : t.completed = false) :
    TaskInv maxTries (applyRecord maxTries t r) := by
  obtain ⟨h1, _⟩ := ht
  have hlt := h1 hp
  rcases applyRecord_cases maxTries t r with ⟨_, hm, he⟩ | ⟨_, hm, he⟩ |
      ⟨_, he⟩
  · rw [he]
    refine ⟨(fun hc => nomatch hc), fun _ => Or.inr ?_⟩
    simp only [List.length_append, List.length_cons, List.length_nil]
    omega
  · rw [he]
    refine ⟨fun _ => ?_, fun hc => ?_⟩
    · simp only [List.length_append, List.length_cons, List.length_nil]
      omega
    · rw [hp] at hc; cases hc
  · rw [he]
    exact ⟨(fun hc => nomatch hc), fun _ => Or.inl rfl⟩

theorem taskInv_roundStep (maxTries : Nat)
    (sched : Nat → α → Option (AttemptRec β)) (k : Nat)
    (ts : List (DaskTask α β)) (h : ∀ t ∈ ts, TaskInv maxTries t) :
    ∀ t ∈ roundStep maxTries sched k ts, TaskInv maxTries t := by
  intro t2 ht2
  rw [roundStep, List.mem_map] at ht2
  obtain ⟨t, htm, rfl⟩ := ht2
  by_cases hc : t.completed = true
  · simpa [hc] using h t htm
  · have hc2 : t.completed = false := by simpa using hc
    simp only [hc2, Bool.false_eq_true, if_false]
    cases sched k t.args with
    | none => exact h t htm
    | some r => exact taskInv_applyRecord maxTries t r (h t htm) hc2

theorem runRounds_inv (maxTries : Nat)
    (sched : Nat → α → Option (AttemptRec β)) :
    ∀ (fuel k : Nat) (ts out : List (DaskTask α β)),
      (∀ t ∈ ts, TaskInv maxTries t) →
      runRounds maxTries sched fuel k ts = some out →
      (∀ t ∈ out, TaskInv maxTries t) ∧
        out.all (fun t => t.completed) = true := by
  intro fuel
  induction fuel with
  | zero =>
    intro k ts out hinv h
    unfold runRounds at h
    split at h
    · next hall =>
        injection h with h2
        subst h2
        exact ⟨hinv, hall⟩
    · cases h
  | succ fuel ih =>
    intro k ts out hinv h
    unfold runRounds at h
    split at h
    · next hall =>
        injection h with h2
        subst h2
        exact ⟨hinv, hall⟩
    · exact ih (k + 1) _ out (taskInv_roundStep maxTries sched k ts hinv) h

theorem pyChunksAux_nil (step : Nat) : ∀ n, pyChunksAux step n ([] : List α) = [] := by
  intro n
  cases n <;> rfl

theorem pyChunks_small (l : List α) (step : Nat) (h : l.length ≤ step)
    (hs : step ≠ 0) : (pyChunks l step).length ≤ 1 := by
  unfold pyChunks
  rw [if_neg hs]
  cases l with
  | nil => simp [pyChunksAux]
  | cons a l =>
    show (pyChunksAux step (l.length + 1) (a :: l)).length ≤ 1
    unfold pyChunksAux
    have hd : (a :: l).drop step = [] :=
      List.drop_eq_nil_of_le (by simpa using h)
    rw [hd, pyChunksAux_nil]
    simp

theorem processFuture_synth_out (maxTries timeout now : Nat) (cancel : Bool)
    (fut : FutureState β) (ts : List (DaskTask α β)) (eo : PyExc)
    (hfb : futureBatchResults fut cancel timeout now ts.length =
      some (List.replicate ts.length (synthRec eo now))) :
    ∃ out : List (DaskTask α β), ∃ cnt : Nat,
      processFuture maxTries timeout now cancel fut (ts, false) =
        some ((out, true), cnt) ∧
      out.length = ts.length ∧
      ∀ i (hi : i < ts.length) (ho : i < out.length),
        (out.get ⟨i, ho⟩).exceptions =
          (ts.get ⟨i, hi⟩).exceptions ++ [synthRec eo now] ∧
        (out.get ⟨i, ho⟩).result = (ts.get ⟨i, hi⟩).result := by
  obtain ⟨cnt, hpf⟩ :=
    processFuture_replicate maxTries timeout now cancel fut ts eo hfb
  refine ⟨_, cnt, hpf, by simp, ?_⟩
  intro i hi ho
  have hr : (synthRec eo now : AttemptRec β).exception.isSome = true := rfl
  have hget : (ts.map
      (fun t => applyRecord maxTries t (synthRec eo now))).get ⟨i, ho⟩ =
      applyRecord maxTries (ts.get ⟨i, hi⟩) (synthRec eo now) := by
    simp [List.get_eq_getElem, List.getElem_map]
  rw [hget]
  exact applyRecord_failure maxTries _ _ hr

/-- Claim C1: a task becomes Exhausted exactly when its append-only
failure list reaches length maxTries.  For a Pending task with fewer than
maxTries failures, one more failed attempt (the shared recordAttempt path
of process_future and async_map) appends exactly one record, leaves the
success slot untouched, and marks the task completed precisely when the
failure count has reached maxTries — never with fewer failures. -/
theorem c1_exhausted_exactly_at_maxTries (maxTries : Nat)
    (t : DaskTask α β) (r : AttemptRec β) (hp : t.completed = false)
    (hlt : t.exceptions.length < maxTries)
    (hr : r.exception.isSome = true) :
    (applyRecord maxTries t r).exceptions.length =
      t.exceptions.length + 1 ∧
    (applyRecord maxTries t r).result = t.result ∧
    ((applyRecord maxTries t r).completed = true ↔
      (applyRecord maxTries t r).exceptions.length = maxTries) ∧
    ((applyRecord maxTries t r).completed = false →
      (applyRecord maxTries t r).exceptions.length < maxTries) := by
  rcases applyRecord_cases maxTries t r with ⟨_, hm, he⟩ | ⟨_, hm, he⟩ |
      ⟨hf, _⟩
  · rw [he]
    refine ⟨by simp, rfl, ⟨fun _ => by simp; omega, fun _ => rfl⟩, ?_⟩
    intro h2
    simp at h2
  · rw [he]
    refine ⟨by simp, rfl, ⟨?_, ?_⟩, ?_⟩
    · intro h2
      simp [hp] at h2
    · intro h2
      refine absurd h2 ?_
      simp
      omega
    · intro _
      simp
      omega
  · rw [hr] at hf
    cases hf

theorem c1_exhausted_exactly_at_maxTries_witness :
    (applyRecord 2 (⟨0, [synthRec (PyExc.error 1) 5], none, false⟩ :
      DaskTask Nat Nat) (synthRec (PyExc.error 2) 6)).completed = true :=
  (c1_exhausted_exactly_at_maxTries 2
    ⟨0, [synthRec (PyExc.error 1) 5], none, false⟩
    (synthRec (PyExc.error 2) 6) rfl (by decide) rfl).2.2.1.mpr (by decide)

/-- Claim C2: for every finite input sequence and every order in which the
concurrent executors complete (any permutation of the index-tagged results
sitting in the priority queue), amap returns the results in the exact
order of the original input sequence. -/
theorem c2_amap_output_in_input_order (op : α → β) (data : List α)
    (queue : List (Nat × β))
    (hq : queue.Perm ((pyEnumFrom 0 data).map (fun p => (p.1, op p.2)))) :
    amapE (fun a => Except.ok (op a)) data queue =
      Except.ok (data.map op) :=
  amapE_ok_of_perm op data queue hq

theorem c2_amap_output_in_input_order_witness :
    amapE (fun a => Except.ok (a + 1)) [10, 20, 30]
      [(2, 31), (0, 11), (1, 21)] = Except.ok [11, 21, 31] :=
  c2_amap_output_in_input_order (fun a => a + 1) [10, 20, 30]
    [(2, 31), (0, 11), (1, 21)] (by decide)

/-- Claim C4 counterexample: with the Fargate backend, a round that
triggers rotation (one worker, reqs_per_ip 1, one request, one failure)
resets the request counter but leaves the error counter at 1, refuting
that rotation resets both counters to zero for every backend. -/
theorem c4_fargate_keeps_error_counter_cex :
    roundCounters ClusterType.fargate 1 1 1 1 ⟨0, 0⟩ = (⟨0, 1⟩, true) := by
  decide

/-- Claim C4 amended: rotation is triggered after a round exactly when the
cumulative request count reaches reqs_per_ip times the live worker count
or ten times the error count reaches the request count (the 10 percent
ratio); performing the rotation resets the request counter for the
Fargate backend but keeps its error counter, resets both counters for the
fixed-host (raspi) backend, and does nothing for the local backend. -/
theorem c4_rotation_trigger_and_resets (ct : ClusterType)
    (reqsPerIp numWorkers batchCount excCount : Nat) (s : IpCounters) :
    ((roundCounters ct reqsPerIp numWorkers batchCount excCount s).2 =
        true ↔
      (reqsPerIp * numWorkers ≤ s.numReqs + batchCount ∨
        s.numReqs + batchCount ≤ 10 * (s.numExc + excCount))) ∧
    (resetCounters ClusterType.fargate s).numReqs = 0 ∧
    (resetCounters ClusterType.fargate s).numExc = s.numExc ∧
    resetCounters ClusterType.raspi s = ⟨0, 0⟩ ∧
    resetCounters ClusterType.local s = s := by
  refine ⟨?_, rfl, rfl, rfl, rfl⟩
  have hx : (roundCounters ct reqsPerIp numWorkers batchCount excCount
      s).2 = rotateTrigger reqsPerIp numWorkers
      ⟨s.numReqs + batchCount, s.numExc + excCount⟩ := by
    unfold roundCounters
    cases htr : rotateTrigger reqsPerIp numWorkers
        ⟨s.numReqs + batchCount, s.numExc + excCount⟩ with
    | true => simp [htr]
    | false => simp [htr]
  rw [hx]
  simp [rotateTrigger]

/-- Claim C8 counterexample: processing a cancelled unit at the round
deadline appends a resolved synthetic Timeout attempt record whose start
timestamp is absent (pre_time is None), refuting that every resolved
attempt record carries both timestamps. -/
theorem c8_synthetic_record_missing_start_cex :
    (processFuture 3 10 99 true (FutureState.unfinished (β := Nat))
        ([mkTask (0 : Nat)], false)).map
      (fun p => p.1.1.map (fun t => t.exceptions.map
        (fun r => r.pre_time))) = some [[(none : Option Nat)]] := rfl

/-- Claim C8 amended: attempt records produced by the wrapper carry both
timestamps with finish at least start; the synthetic records built by
process_future carry only the finish timestamp, their start timestamp is
None. -/
theorem c8_attempt_record_timestamps (f : α → Except PyExc (Option β))
    (t0 dur : Nat) (arg : α) (e : PyExc) (now : Nat) :
    (daskFuncE f t0 dur arg).pre_time = some t0 ∧
    (daskFuncE f t0 dur arg).post_time = some (t0 + dur) ∧
    t0 ≤ t0 + dur ∧
    (asyncDaskFuncE f t0 dur arg).pre_time = some t0 ∧
    (asyncDaskFuncE f t0 dur arg).post_time = some (t0 + dur) ∧
    (synthRec e now : AttemptRec β).pre_time = none ∧
    (synthRec e now : AttemptRec β).post_time = some now := by
  unfold daskFuncE asyncDaskFuncE synthRec
  cases f arg <;> simp

/-- Claim C9 counterexample: wrapping a function that returns the Python
value None yields a record in which neither res nor exception is
non-None, refuting that exactly one of the two fields is always
non-None. -/
theorem c9_none_result_cex :
    (daskFuncE (fun _ : Nat => (Except.ok none : Except PyExc (Option Nat)))
      0 0 0).res = none ∧
    (daskFuncE (fun _ : Nat => (Except.ok none : Except PyExc (Option Nat)))
      0 0 0).exception = none := by
  decide

/-- Claim C9 amended: the attempt wrapper never raises and never sets both
fields; the exception field is set exactly when the wrapped call raised,
and whenever the wrapped function returns a non-None value, exactly one of
the two fields is non-None (res). -/
theorem c9_wrapper_classifies (f : α → Except PyExc (Option β))
    (t0 dur : Nat) (arg : α) :
    (¬((daskFuncE f t0 dur arg).res.isSome = true ∧
       (daskFuncE f t0 dur arg).exception.isSome = true)) ∧
    ((daskFuncE f t0 dur arg).exception.isSome = true ↔
      ∃ e, f arg = Except.error e) ∧
    (∀ v : β, f arg = Except.ok (some v) →
      (daskFuncE f t0 dur arg).res = some v ∧
      (daskFuncE f t0 dur arg).exception = none) := by
  unfold daskFuncE
  cases hf : f arg with
  | ok v =>
    cases v <;> simp [hf]
  | error e =>
    simp [hf]

theorem c9_wrapper_classifies_witness :
    (daskFuncE (fun _ : Nat =>
      (Except.ok (some 7) : Except PyExc (Option Nat))) 2 3 0).res =
        some 7 ∧
    (daskFuncE (fun _ : Nat =>
      (Except.ok (some 7) : Except PyExc (Option Nat))) 2 3 0).exception =
        none :=
  (c9_wrapper_classifies
    (fun _ : Nat => (Except.ok (some 7) : Except PyExc (Option Nat)))
    2 3 0).2.2 7 rfl

/-- Claim C10: process_future is idempotent per unit of work: on an entry
whose processed flag is set it returns immediately, leaving the tasks,
the flag and the exception counter unchanged; and any successful
processing of an unprocessed entry sets the flag, so a second pass over
the same future (as after a round timeout) is a no-op. -/
theorem c10_processFuture_idempotent (maxTries timeout now : Nat)
    (cancel : Bool) (fut : FutureState β) (ts : List (DaskTask α β)) :
    processFuture maxTries timeout now cancel fut (ts, true) =
      some ((ts, true), 0) ∧
    ∀ p, processFuture maxTries timeout now cancel fut (ts, false) =
        some p → p.1.2 = true := by
  constructor
  · rfl
  · intro p hp
    have hp2 : (match futureBatchResults fut cancel timeout now
        ts.length with
      | none => none
      | some rs => some ((applyResults maxTries ts rs, true),
          countExc ts rs)) = some p := hp
    cases hfb : futureBatchResults fut cancel timeout now ts.length with
    | none =>
      rw [hfb] at hp2
      cases hp2
    | some rs =>
      rw [hfb] at hp2
      injection hp2 with h2
      rw [← h2]

theorem c10_processFuture_idempotent_witness :
    processFuture 3 10 99 true (FutureState.unfinished (β := Nat))
      ([mkTask (0 : Nat)], true) = some (([mkTask (0 : Nat)], true), 0) ∧
    ((([⟨0, [synthRec (PyExc.timeoutError 10) 99], none, false⟩], true),
      1) : (List (DaskTask Nat Nat) × Bool) × Nat).1.2 = true := by
  refine ⟨(c10_processFuture_idempotent 3 10 99 true
    FutureState.unfinished [mkTask 0]).1, ?_⟩
  exact (c10_processFuture_idempotent 3 10 99 true
    FutureState.unfinished [mkTask 0]).2 _ rfl

/-- Claim C3 counterexample: a unit whose future failed (first pass, no
cancellation) gives every task a synthetic record carrying the raised
exception, which is not a Timeout record — refuting that every task in a
cancelled or failed unit receives a synthetic Timeout attempt record. -/
theorem c3_failed_unit_not_timeout_cex :
    (processFuture 3 10 99 false (FutureState.failed (β := Nat)
        (PyExc.error 7)) ([mkTask (0 : Nat)], false)).map
      (fun p => p.1.1.map (fun t => t.exceptions.map
        (fun r => r.exception))) = some [[some (PyExc.error 7)]] ∧
    PyExc.isTimeout (PyExc.error 7) = false := ⟨rfl, rfl⟩

/-- Claim C3 amended: for every unit of work that is cancelled at the
round deadline or whose future failed, every task in the unit receives
exactly one synthetic attempt record for that round (appended to its
failure list, success slot untouched, no task skipped, entry marked
processed): a TimeoutError record when the unit is cancelled while
unfinished, and a record carrying the raised exception of the unit when
its future failed on the first pass. -/
theorem c3_every_task_one_synthetic_attempt (maxTries timeout now : Nat)
    (cancel : Bool) (fut : FutureState β) (ts : List (DaskTask α β))
    (hc : (cancel = true ∧ fut.isFinished = false) ∨
      ∃ e, fut = FutureState.failed e) :
    ∃ eo : PyExc,
      ((cancel = true ∧ fut.isFinished = false) →
        eo = PyExc.timeoutError timeout) ∧
      (∀ e, cancel = false → fut = FutureState.failed e → eo = e) ∧
      ∃ out : List (DaskTask α β), ∃ cnt : Nat,
        processFuture maxTries timeout now cancel fut (ts, false) =
          some ((out, true), cnt) ∧
        out.length = ts.length ∧
        ∀ i (hi : i < ts.length) (ho : i < out.length),
          (out.get ⟨i, ho⟩).exceptions =
            (ts.get ⟨i, hi⟩).exceptions ++ [synthRec eo now] ∧
          (out.get ⟨i, ho⟩).result = (ts.get ⟨i, hi⟩).result := by
  by_cases hca : cancel = true
  · have hcf : fut.isFinished = false := by
      rcases hc with ⟨_, h⟩ | ⟨e, he⟩
      · exact h
      · rw [he]; rfl
    refine ⟨PyExc.timeoutError timeout, fun _ => rfl, ?_, ?_⟩
    · intro e hc0 _
      rw [hca] at hc0
      cases hc0
    · refine processFuture_synth_out maxTries timeout now cancel fut ts
        _ ?_
      unfold futureBatchResults
      rw [hca, hcf]
      rfl
  · have hcf : cancel = false := by
      cases cancel
      · rfl
      · exact absurd rfl hca
    rcases hc with ⟨h1, _⟩ | ⟨e, hfe⟩
    · exact absurd h1 hca
    · refine ⟨e, ?_, ?_, ?_⟩
      · intro h1
        exact absurd h1.1 hca
      · intro e2 _ hfe2
        rw [hfe] at hfe2
        injection hfe2 with h3
      · refine processFuture_synth_out maxTries timeout now cancel fut ts
          _ ?_
        rw [hcf, hfe]
        rfl

theorem c3_every_task_one_synthetic_attempt_witness :
    (processFuture 3 10 99 true (FutureState.unfinished (β := Nat))
      ([mkTask (0 : Nat)], false)).isSome = true := by
  obtain ⟨eo, _, _, out, cnt, hpf, _, _⟩ :=
    c3_every_task_one_synthetic_attempt 3 10 99 true
      FutureState.unfinished [mkTask (0 : Nat)] (Or.inl ⟨rfl, rfl⟩)
  rw [hpf]
  rfl

/-- Claim C5: when the engine loop returns (the
while-incomplete-tasks-remain loop of dask_map and async_map exits),
every task is completed — Succeeded with a stored result or Exhausted
with exactly maxTries failures — and no task remains Pending, for every
schedule of attempt outcomes. -/
theorem c5_run_returns_all_completed (maxTries : Nat)
    (sched : Nat → α → Option (AttemptRec β)) (fuel : Nat) (args : List α)
    (out : List (DaskTask α β)) (hmt : 0 < maxTries)
    (h : runRounds maxTries sched fuel 0 (args.map (mkTask (β := β))) =
      some out) :
    ∀ t ∈ out, t.completed = true ∧
      (t.result.isSome = true ∨ t.exceptions.length = maxTries) := by
  have hinv : ∀ t ∈ args.map (mkTask (β := β)), TaskInv maxTries t := by
    intro t ht
    rw [List.mem_map] at ht
    obtain ⟨a, _, rfl⟩ := ht
    refine ⟨fun _ => ?_, fun hc => ?_⟩
    · simpa [mkTask] using hmt
    · simp [mkTask] at hc
  obtain ⟨hinv2, hall⟩ := runRounds_inv maxTries sched fuel 0 _ out hinv h
  intro t ht
  have hct : t.completed = true := by
    simpa using List.all_eq_true.1 hall t ht
  exact ⟨hct, (hinv2 t ht).2 hct⟩

theorem c5_run_returns_all_completed_witness :
    (⟨0, [synthRec (PyExc.error 0) 0], none, true⟩ :
      DaskTask Nat Nat).completed = true ∧
    ((⟨0, [synthRec (PyExc.error 0) 0], none, true⟩ :
      DaskTask Nat Nat).result.isSome = true ∨
      (⟨0, [synthRec (PyExc.error 0) 0], none, true⟩ :
        DaskTask Nat Nat).exceptions.length = 1) :=
  c5_run_returns_all_completed 1
    (fun _ _ => some (synthRec (PyExc.error 0) 0)) 1 [0]
    [⟨0, [synthRec (PyExc.error 0) 0], none, true⟩] (by decide) rfl
    ⟨0, [synthRec (PyExc.error 0) 0], none, true⟩ (by simp)

/-- Claim C6 counterexample: amap applied to a bare operation that raises
does not return a sequence at all — the exception propagates out of the
gather call — so no output of the input length is produced. -/
theorem c6_raising_op_raises_cex :
    amapE (fun _ : Nat => (Except.error (PyExc.error 0) :
      Except PyExc Nat)) [0] [] = Except.error (PyExc.error 0) := rfl

/-- Claim C6 amended: for an operation that never raises — in particular
any operation wrapped by AsyncDaskFunc, which converts every raise of the
underlying function into a classified failure record — amap returns, for
every completion order, a sequence whose length equals the input length,
entry i being the attempt record for input i; a bare operation that
raises instead causes amap to re-raise the exception. -/
theorem c6_wrapped_amap_full_length (f : α → Except PyExc (Option β))
    (preT durT : α → Nat) (data : List α)
    (queue : List (Nat × AttemptRec β))
    (hq : queue.Perm ((pyEnumFrom 0 data).map
      (fun p => (p.1, asyncDaskFuncE f (preT p.2) (durT p.2) p.2)))) :
    amapE (fun a => Except.ok (asyncDaskFuncE f (preT a) (durT a) a))
        data queue =
      Except.ok (data.map
        (fun a => asyncDaskFuncE f (preT a) (durT a) a)) ∧
    (data.map (fun a => asyncDaskFuncE f (preT a) (durT a) a)).length =
      data.length :=
  ⟨amapE_ok_of_perm _ data queue hq, by simp⟩

theorem c6_wrapped_amap_full_length_witness :
    amapE (fun a => Except.ok (asyncDaskFuncE
      (fun n : Nat => if n = 0 then Except.error (PyExc.error 5)
        else Except.ok (some n)) 0 1 a)) [0, 1]
      [(1, ⟨some 1, none, some 0, some 1⟩),
       (0, ⟨none, some (PyExc.error 5), some 0, some 1⟩)] =
      Except.ok [⟨none, some (PyExc.error 5), some 0, some 1⟩,
        ⟨some 1, none, some 0, some 1⟩] ∧
    ([(⟨none, some (PyExc.error 5), some 0, some 1⟩ : AttemptRec Nat),
      ⟨some 1, none, some 0, some 1⟩]).length = 2 :=
  c6_wrapped_amap_full_length
    (fun n : Nat => if n = 0 then Except.error (PyExc.error 5)
      else Except.ok (some n)) (fun _ => 0) (fun _ => 1) [0, 1]
    [(1, ⟨some 1, none, some 0, some 1⟩),
     (0, ⟨none, some (PyExc.error 5), some 0, some 1⟩)] (by decide)

/-- Claim C7 (code bug): the dispatcher slices the round batch with step
batch_size instead of task_batch_size, so every round submits at most one
unit of work regardless of the configured sub-batch size; in particular
with 100 fresh tasks, batch_size 100 and task_batch_size 10 (the values
used in main), the code produces a single unit of 100 tasks where the
claimed partition is ten units of ten tasks. -/
theorem c7_dispatcher_single_unit :
    (∀ (ts : List (DaskTask α β)) (batchSize : Nat),
      (buildSubBatches ts batchSize).length ≤ 1) ∧
    (buildSubBatches ((List.range 100).map (mkTask (β := Nat)))
      100).map List.length = [100] := by
  constructor
  · intro ts bs
    by_cases hbs : bs = 0
    · subst hbs
      simp [buildSubBatches, pyChunks]
    · have hlen : ((ts.filter (fun t => !t.completed)).take
          (min bs (ts.filter (fun t => !t.completed)).length)).length ≤
          bs :=
        Nat.le_trans (List.length_take_le _ _) (Nat.min_le_left _ _)
      exact pyChunks_small _ _ hlen hbs
  · rfl
